import Mathlib

/-!
Verification development for the horn_detect repository.

The embedding covers `log_merge.py` (timestamp codec, log-line codec, interval
consolidation) and `train_horn.py` (cosine-similarity scanner, step computation).

Modelling conventions:
* Python strings are lists of characters (`List Char`).
* Python integers are `ℤ` (or `ℕ` where the source value is a length/count).
* Python floats are IEEE-754 binary64 values, represented exactly as rationals;
  every float operation of the source is the exact rational operation followed
  by the correctly-rounded conversion `fl : ℚ → ℚ` (round to nearest, ties to
  even, 53-bit significand — overflow and subnormals do not occur in the
  modelled ranges, every value being 0 or of magnitude between 1/1000 and a
  few million).
* Fallible code (uncaught Python exceptions) returns `Option`/`Except`.

`Rat.mul`, `Rat.inv`, `Rat.add` and `Rat.sub` are `@[irreducible]` in the
library; they are made semireducible here so that concrete evaluations can go
through `decide`.
-/

set_option maxRecDepth 40000

attribute [local semireducible] Rat.mul Rat.inv Rat.add Rat.sub

namespace HornDetect

/-! ## IEEE-754 binary64 model -/

/-- Round a rational to the nearest integer, ties to even.  This is the rounding
of IEEE-754 round-to-nearest-even applied to a scaled significand, and also the
rounding used by Python string formatting. -/
def roundHalfEven (q : ℚ) : ℤ :=
  let f := ⌊q⌋
  if q - f < 1 / 2 then f
  else if 1 / 2 < q - f then f + 1
  else if Even f then f else f + 1

/-- Fuel-based base-2 logarithm on naturals (structural recursion so that the
kernel can evaluate it); `natLog2 fuel n = ⌊log₂ n⌋` whenever `fuel ≥ n ≥ 1`. -/
def natLog2 : ℕ → ℕ → ℕ
  | 0, _ => 0
  | fuel + 1, n => if n < 2 then 0 else natLog2 fuel (n / 2) + 1

/-- Base-2 logarithm, `⌊log₂ n⌋` for `n ≥ 1` (and 0 at 0). -/
def log2' (n : ℕ) : ℕ := natLog2 n n

/-- Floor of the base-2 logarithm of a positive rational: the unique `l` with
`2 ^ l ≤ q < 2 ^ (l + 1)`.  The difference of the leading-bit positions of the
numerator and denominator is within one of the answer, and the comparisons pick
the correct candidate. -/
def floorLog2 (q : ℚ) : ℤ :=
  let l : ℤ := (log2' q.num.natAbs : ℤ) - (log2' q.den : ℤ)
  if (2 : ℚ) ^ (l + 1) ≤ q then l + 1
  else if (2 : ℚ) ^ l ≤ q then l
  else l - 1

/-- Round a rational to the nearest IEEE-754 binary64 value (round to nearest,
ties to even): scale `|q|` into `[2^52, 2^53)`, round the significand to an
integer, and rescale.  Exact for every value a Python float takes in the ranges
exercised here (no overflow, no subnormals). -/
def fl (q : ℚ) : ℚ :=
  if q = 0 then 0
  else
    let e : ℤ := floorLog2 |q| - 52
    (if q < 0 then -1 else 1) * (roundHalfEven (|q| / (2 : ℚ) ^ e) : ℚ) * (2 : ℚ) ^ e

/-- Python float addition: correctly rounded binary64 `+`. -/
def fadd (a b : ℚ) : ℚ := fl (a + b)

/-- Python float multiplication: correctly rounded binary64 `*`. -/
def fmul (a b : ℚ) : ℚ := fl (a * b)

/-- Python float true division: correctly rounded binary64 `/`. -/
def fdiv (a b : ℚ) : ℚ := fl (a / b)

/-- Python `int()` applied to a float: truncation toward zero. -/
def pyInt (q : ℚ) : ℤ := if q < 0 then -⌊-q⌋ else ⌊q⌋

/-! ## Decimal digits, zero padding, Python `float()` -/

/-- Value of a list of decimal digit characters, accumulated positionally
(leading zeros allowed), as Python's number parsing does. -/
def digitsVal (s : List Char) : ℕ :=
  s.foldl (fun acc c => 10 * acc + (c.toNat - 48)) 0

/-- Decimal digit characters of `n`: Python `str(n)` for `n ≥ 0`. -/
def natRepr (n : ℕ) : List Char := Nat.toDigits 10 n

/-- Python format `"{n:02}"`: zero-pad to width at least 2. -/
def pad2 (n : ℕ) : List Char := if n < 10 then '0' :: natRepr n else natRepr n

/-- Python format `"{n:03}"`: zero-pad to width at least 3. -/
def pad3 (n : ℕ) : List Char :=
  if n < 10 then '0' :: '0' :: natRepr n
  else if n < 100 then '0' :: natRepr n
  else natRepr n

/-- Python `float(s)` on the token shapes reachable in this program (strings of
decimal digits and dots, as produced by the log-line regex groups and the split
timestamp fields): a valid float literal among these has at most one dot and at
least one digit, and its value is the binary64 nearest to the decimal value;
anything else raises `ValueError`, modelled as `none`. -/
def pyFloat (s : List Char) : Option ℚ :=
  if s.all (fun c => c.isDigit || c == '.') ∧ s.count '.' ≤ 1 ∧ s.any (·.isDigit) then
    let ip := s.takeWhile (fun c => c ≠ '.')
    let fp := (s.dropWhile (fun c => c ≠ '.')).drop 1
    some (fl ((digitsVal ip : ℚ) + (digitsVal fp : ℚ) / 10 ^ fp.length))
  else none

/-- Python `timestamp.split(":")`. -/
def splitColon : List Char → List (List Char)
  | [] => [[]]
  | c :: cs =>
    let r := splitColon cs
    if c = ':' then [] :: r
    else
      match r with
      | [] => [[c]]
      | p :: ps => (c :: p) :: ps

/-! ## Timestamp codec (log_merge.py) -/

/-- `log_merge.timestamp_to_ms`: `minutes, seconds = map(float, timestamp.split(":"))`
then `int((minutes * 60 + seconds) * 1000)`, with binary64 arithmetic.  `none`
models the uncaught exception when the string does not split into exactly two
float-parsable fields. -/
def timestamp_to_ms (s : List Char) : Option ℤ :=
  match splitColon s with
  | [mStr, sStr] =>
    match pyFloat mStr, pyFloat sStr with
    | some m, some sec => some (pyInt (fmul (fadd (fmul m 60) sec) 1000))
    | _, _ => none
  | _ => none

/-- `log_merge.ms_to_timestamp` for a non-negative millisecond count:
`seconds, milliseconds = divmod(ms, 1000)`, `minutes, seconds = divmod(seconds, 60)`,
formatted `"{minutes:02}:{seconds:02}.{milliseconds:03}"`.  Python `divmod` is
floored division, i.e. `Int.ediv`/`Int.emod` for the positive divisors used
here; all claims apply it to non-negative counts, where `Int.toNat` is exact. -/
def ms_to_timestamp (ms : ℤ) : List Char :=
  let seconds := ms.ediv 1000
  let milliseconds := ms.emod 1000
  let minutes := seconds.ediv 60
  let secs := seconds.emod 60
  pad2 minutes.toNat ++ ':' :: pad2 secs.toNat ++ '.' :: pad3 milliseconds.toNat

/-- The timestamp string `"MM:SS.mmm"` with the given field values.  Every
string matching the 2+2+3-digit grammar is `tsString` of its (unique) field
values `mm ≤ 99`, `ss ≤ 99`, `mmm ≤ 999`. -/
def tsString (mm ss mmm : ℕ) : List Char :=
  pad2 mm ++ ':' :: pad2 ss ++ '.' :: pad3 mmm

/-- The claim's timestamp grammar: exactly nine characters `DD:DD.DDD`. -/
def conformsTS : List Char → Bool
  | [m1, m2, c1, s1, s2, c2, x1, x2, x3] =>
    m1.isDigit && m2.isDigit && c1 == ':' && s1.isDigit && s2.isDigit &&
      c2 == '.' && x1.isDigit && x2.isDigit && x3.isDigit
  | _ => false

/-! ## Interval consolidator (log_merge.merge_intervals) -/

/-- One parsed `(start_ms, end_ms, similarity)` tuple; the similarity is a
binary64 value, represented exactly as a rational. -/
structure Interval where
  start_ms : ℤ
  end_ms : ℤ
  similarity : ℚ
deriving DecidableEq

/-- The sort key of `intervals.sort(key=lambda x: x[0])`: comparison by
`start_ms` only. -/
def leStart (a b : Interval) : Prop := a.start_ms ≤ b.start_ms

instance : DecidableRel leStart := fun a b =>
  inferInstanceAs (Decidable (a.start_ms ≤ b.start_ms))

instance : IsTotal Interval leStart := ⟨fun a b => Int.le_total a.start_ms b.start_ms⟩

instance : IsTrans Interval leStart := ⟨fun _ _ _ h1 h2 => le_trans h1 h2⟩

/-- The accumulation loop of `merge_intervals`: `merged = [first]`, then for
each `current`, either merge into the last accumulated entry (when
`current[0] - last[1] <= gap_ms`) by taking the max end and max similarity and
keeping the last entry's start, or append `current` as a new entry. -/
def mergeLoop (gap_ms : ℤ) : Interval → List Interval → List Interval
  | last, [] => [last]
  | last, current :: rest =>
    if current.start_ms - last.end_ms ≤ gap_ms then
      mergeLoop gap_ms
        ⟨last.start_ms, max last.end_ms current.end_ms,
          max last.similarity current.similarity⟩ rest
    else
      last :: mergeLoop gap_ms current rest

/-- `log_merge.merge_intervals`: return `[]` on empty input, otherwise sort by
start time and sweep.  Python's `list.sort` is a stable sort; `insertionSort`
is also stable, and any two stable sorts with the same key agree, so the sorted
sequence is the one the source computes. -/
def merge_intervals (intervals : List Interval) (gap_ms : ℤ) : List Interval :=
  match List.insertionSort leStart intervals with
  | [] => []
  | first :: rest => mergeLoop gap_ms first rest

/-- The caller's `intervals` list as left behind by `merge_intervals`: the
early return on an empty list leaves it untouched, otherwise
`intervals.sort(key=lambda x: x[0])` has reordered it in place into the stably
sorted sequence.  (The `gap_ms` argument is part of the call but does not
influence the post-state.) -/
def merge_intervals_post (intervals : List Interval) (gap_ms : ℤ) : List Interval :=
  if intervals = [] then intervals else List.insertionSort leStart intervals

/-! ## Log-line codec -/

/-- Python format `"{x:.2f}"`: the exact value of the binary64 argument rounded
to two decimal places, round half to even, sign in front. -/
def formatTwo (q : ℚ) : List Char :=
  let n := (roundHalfEven (|q| * 100)).toNat
  (if q < 0 then ['-'] else []) ++ natRepr (n / 100) ++ '.' :: pad2 (n % 100)

/-- The log line written for one match — the f-string of
`train_horn.log_matches` and of `log_merge.process_log_file` (both write the
identical format), without the trailing newline. -/
def matchLine (s e : ℤ) (similarity : ℚ) : List Char :=
  ("Match: ").toList ++ ms_to_timestamp s ++ (" → ").toList ++ ms_to_timestamp e
    ++ (" | Similarity: ").toList ++ formatTwo similarity

/-- Consume an expected literal at the front of the input; `some` returns what
follows it. -/
def stripLit : List Char → List Char → Option (List Char)
  | [], rest => some rest
  | _ :: _, [] => none
  | l :: ls, c :: cs => if c = l then stripLit ls cs else none

/-- Consume exactly `n` decimal digits from the front of the input, returning
them and the remainder. -/
def takeDigits : ℕ → List Char → Option (List Char × List Char)
  | 0, rest => some ([], rest)
  | _ + 1, [] => none
  | n + 1, c :: cs =>
    if c.isDigit then (takeDigits n cs).map (fun p => (c :: p.1, p.2)) else none

/-- The regex group `(\d{2}:\d{2}\.\d{3})`: two digits, a colon, two digits, a
dot, three digits; returns the nine matched characters and the remainder. -/
def matchTS (s : List Char) : Option (List Char × List Char) := do
  let (d1, r1) ← takeDigits 2 s
  let r2 ← stripLit [':'] r1
  let (d2, r3) ← takeDigits 2 r2
  let r4 ← stripLit ['.'] r3
  let (d3, r5) ← takeDigits 3 r4
  some (d1 ++ ':' :: (d2 ++ '.' :: d3), r5)

/-- The regex of `parse_log_line`,
`Match: (\d{2}:\d{2}\.\d{3}) → (\d{2}:\d{2}\.\d{3}) \| Similarity: ([\d\.]+)`,
applied with `re.match`: anchored at the beginning of the line only, arbitrary
text may follow the match.  On success returns the three captured groups; the
last group is the maximal non-empty run of digits and dots.  (`\d` is modelled
as the ASCII digits; Python's Unicode-digit corner of `\d` is out of scope.) -/
def regexMatchLine (line : List Char) : Option (List Char × List Char × List Char) := do
  let r0 ← stripLit ("Match: ").toList line
  let (g1, r1) ← matchTS r0
  let r2 ← stripLit (" → ").toList r1
  let (g2, r3) ← matchTS r2
  let r4 ← stripLit (" | Similarity: ").toList r3
  let g3 := r4.takeWhile (fun c => c.isDigit || c == '.')
  if g3 = [] then none else some (g1, g2, g3)

/-- Decidable equality for `Except`, needed to evaluate parse results. -/
instance {e a : Type} [DecidableEq e] [DecidableEq a] : DecidableEq (Except e a) := fun x y =>
  match x, y with
  | .ok u, .ok v =>
    if h : u = v then .isTrue (congrArg Except.ok h)
    else .isFalse fun hh => h (Except.ok.inj hh)
  | .ok _, .error _ => .isFalse fun hh => Except.noConfusion hh
  | .error _, .ok _ => .isFalse fun hh => Except.noConfusion hh
  | .error u, .error v =>
    if h : u = v then .isTrue (congrArg Except.error h)
    else .isFalse fun hh => h (Except.error.inj hh)

/-- `log_merge.parse_log_line`: `Except.ok none` models the `return None` taken
when the regex does not match; `Except.error ()` models an uncaught
`ValueError` escaping from `float(...)` on a matched but malformed group. -/
def parse_log_line (line : List Char) : Except Unit (Option Interval) :=
  match regexMatchLine line with
  | none => .ok none
  | some (g1, g2, g3) =>
    match timestamp_to_ms g1, timestamp_to_ms g2, pyFloat g3 with
    | some s, some e, some sim => .ok (some ⟨s, e, sim⟩)
    | _, _, _ => .error ()

/-- The read loop of `process_log_file`: parse each line in file order, keep
the parsed tuples, skip lines that do not match; an exception aborts the run. -/
def collectParsed : List (List Char) → Except Unit (List Interval)
  | [] => .ok []
  | l :: ls =>
    match parse_log_line l with
    | .error e => .error e
    | .ok none => collectParsed ls
    | .ok (some t) => (collectParsed ls).map (fun r => t :: r)

/-- `log_merge.process_log_file` on the list of input lines: parse, merge,
format one output line per merged interval. -/
def process_log_lines (lines : List (List Char)) (gap_ms : ℤ) :
    Except Unit (List (List Char)) :=
  (collectParsed lines).map fun intervals =>
    (merge_intervals intervals gap_ms).map fun t =>
      matchLine t.start_ms t.end_ms t.similarity

/-! ## Similarity scanner (train_horn.py) -/

/-- Sum of squared entries of a sample vector (`np.linalg.norm(a) ** 2`,
computed exactly). -/
def sumsq (a : List ℚ) : ℚ := (a.map fun x => x * x).sum

/-- Dot product of two equal-length sample vectors (`np.dot`). -/
def dotProd (a b : List ℚ) : ℚ := (List.zipWith (fun x y => x * y) a b).sum

/-- Euclidean norm `np.linalg.norm(a)`.  The norm is irrational in general, so
it lives in `ℝ`; the float rounding of the norm itself is not modelled — the
claims about the similarity only concern its zero/nonzero structure, which
rounding preserves (IEEE `sqrt` of a positive value is positive, and of zero is
zero). -/
noncomputable def vnorm (a : List ℚ) : ℝ := Real.sqrt ((sumsq a : ℚ) : ℝ)

section
open Classical

/-- `train_horn.fast_cosine_similarity`: `0.0` when either norm is zero,
otherwise `dot(a, b) / (norm(a) * norm(b))`. -/
noncomputable def fast_cosine_similarity (a b : List ℚ) : ℝ :=
  if vnorm a = 0 ∨ vnorm b = 0 then 0
  else ((dotProd a b : ℚ) : ℝ) / (vnorm a * vnorm b)

/-- `step_samples = int((step_ms / 1000) * full_audio.frame_rate)` of
`train_horn.match_segments`, with Python binary64 division and multiplication
(both arguments are Python ints, exact as binary64 in the modelled ranges). -/
def step_samples (step_ms frame_rate : ℕ) : ℕ :=
  (pyInt (fmul (fdiv (step_ms : ℚ) 1000) (frame_rate : ℚ))).toNat

/-- The window start positions `range(0, len(full_np) - sample_len, step)` for a
positive stride: `0, step, 2*step, ...` strictly below `len(full_np) - sample_len`
(empty when that stop value is not positive). -/
def scanPositions (fullLen sampleLen step : ℕ) : List ℕ :=
  (List.range ((fullLen - sampleLen + step - 1) / step)).map (· * step)

/-- `train_horn.match_segments` on the decoded sample arrays: `none` models the
`ZeroDivisionError` raised computing `total_steps` when `step_samples` is zero
(and the `range` stride error that would follow); otherwise the scan visits
`scanPositions` in order and keeps `(start_ms, end_ms, similarity)` for every
window whose similarity strictly exceeds the threshold.
`sample_duration_ms` is `len(sample_audio)` — pydub's length in milliseconds of
the reference clip — used only for `end_ms`. -/
noncomputable def match_segments (full sample : List ℚ) (frame_rate step_ms : ℕ)
    (sample_duration_ms : ℤ) (similarity_threshold : ℝ) :
    Option (List (ℤ × ℤ × ℝ)) :=
  if step_samples step_ms frame_rate = 0 then none
  else
    some <|
      (scanPositions full.length sample.length
          (step_samples step_ms frame_rate)).filterMap fun i =>
        let seg := (full.drop i).take sample.length
        let sim := fast_cosine_similarity sample seg
        if similarity_threshold < sim then
          let s := pyInt (fmul (fdiv (i : ℚ) (frame_rate : ℚ)) 1000)
          some (s, s + sample_duration_ms, sim)
        else none

end

/-! ## Lemmas about the consolidator -/

theorem mergeLoop_head (gap : ℤ) :
    ∀ (rest : List Interval) (last : Interval),
      ∃ e s tl, mergeLoop gap last rest = ⟨last.start_ms, e, s⟩ :: tl
  | [], last => ⟨last.end_ms, last.similarity, [], rfl⟩
  | current :: rest, last => by
    simp only [mergeLoop]
    by_cases hc : current.start_ms - last.end_ms ≤ gap
    · rw [if_pos hc]
      exact mergeLoop_head gap rest _
    · rw [if_neg hc]
      exact ⟨last.end_ms, last.similarity, mergeLoop gap current rest, rfl⟩

theorem mergeLoop_chain (gap : ℤ) :
    ∀ (rest : List Interval) (last : Interval),
      List.Sorted leStart (last :: rest) →
      List.Chain' (fun p n => leStart p n ∧ gap < n.start_ms - p.end_ms)
        (mergeLoop gap last rest)
  | [], _, _ => by simp [mergeLoop]
  | current :: rest, last, h => by
    obtain ⟨hall, htail⟩ := List.sorted_cons.mp h
    simp only [mergeLoop]
    by_cases hc : current.start_ms - last.end_ms ≤ gap
    · rw [if_pos hc]
      apply mergeLoop_chain gap rest
      refine List.sorted_cons.mpr ⟨?_, (List.sorted_cons.mp htail).2⟩
      intro b hb
      exact hall b (List.mem_cons_of_mem _ hb)
    · rw [if_neg hc]
      obtain ⟨e, s, tl, heq⟩ := mergeLoop_head gap rest current
      rw [heq]
      refine List.Chain'.cons ⟨hall current (List.mem_cons_self _ _), ?_⟩ ?_
      · show gap < current.start_ms - last.end_ms
        omega
      · rw [← heq]
        exact mergeLoop_chain gap rest current htail

theorem merge_intervals_chain (l : List Interval) (gap : ℤ) :
    List.Chain' (fun p n => leStart p n ∧ gap < n.start_ms - p.end_ms)
      (merge_intervals l gap) := by
  unfold merge_intervals
  split
  · exact List.chain'_nil
  · next first rest h =>
    apply mergeLoop_chain
    rw [← h]
    exact List.sorted_insertionSort leStart l

theorem merge_intervals_sorted (l : List Interval) (gap : ℤ) :
    List.Sorted leStart (merge_intervals l gap) :=
  List.chain'_iff_pairwise.mp ((merge_intervals_chain l gap).imp fun _ _ hab => hab.1)

theorem mergeLoop_of_chain (gap : ℤ) :
    ∀ (rest : List Interval) (last : Interval),
      List.Chain' (fun p n => gap < n.start_ms - p.end_ms) (last :: rest) →
      mergeLoop gap last rest = last :: rest
  | [], _, _ => rfl
  | current :: rest, last, h => by
    obtain ⟨h1, h2⟩ := List.chain'_cons.mp h
    simp only [mergeLoop, if_neg (show ¬current.start_ms - last.end_ms ≤ gap by omega)]
    exact congrArg (List.cons last) (mergeLoop_of_chain gap rest current h2)

theorem merge_intervals_of_invariant (out : List Interval) (gap : ℤ)
    (hs : List.Sorted leStart out)
    (hc : List.Chain' (fun p n => gap < n.start_ms - p.end_ms) out) :
    merge_intervals out gap = out := by
  unfold merge_intervals
  rw [hs.insertionSort_eq]
  cases out with
  | nil => rfl
  | cons first rest => exact mergeLoop_of_chain gap rest first hc

/-! ## Claim theorems: consolidator -/

/-- Claim C1: for every input sequence of detections and every gap tolerance
`gapMs`, the output of `merge_intervals` is sorted ascending by `start_ms`, and
every pair of consecutive output intervals `prev, next` satisfies
`next.start_ms - prev.end_ms > gapMs`. -/
theorem consolidate_sorted_gap_invariant (detections : List Interval) (gapMs : ℤ) :
    List.Sorted leStart (merge_intervals detections gapMs) ∧
    List.Chain' (fun prev next => gapMs < next.start_ms - prev.end_ms)
      (merge_intervals detections gapMs) :=
  ⟨merge_intervals_sorted detections gapMs,
    (merge_intervals_chain detections gapMs).imp fun _ _ hab => hab.2⟩

/-- Claim C6: consolidation is idempotent — feeding the output of
`merge_intervals` back in with the same gap returns the same sequence. -/
theorem consolidate_idempotent (detections : List Interval) (g : ℤ) :
    merge_intervals (merge_intervals detections g) g = merge_intervals detections g :=
  merge_intervals_of_invariant _ g (merge_intervals_sorted detections g)
    ((merge_intervals_chain detections g).imp fun _ _ hab => hab.2)

/-- Claim C9: `merge_intervals` mutates its input — after the call the caller's
list is a permutation of the original reordered into ascending `start_ms` order
(the in-place `intervals.sort`), and on unsorted input the list object really
changes, as the concrete second conjunct shows. -/
theorem merge_mutates_input :
    (∀ (intervals : List Interval) (g : ℤ), intervals ≠ [] →
        (merge_intervals_post intervals g).Perm intervals ∧
        List.Sorted leStart (merge_intervals_post intervals g)) ∧
      merge_intervals_post [⟨5, 6, 0⟩, ⟨1, 2, 0⟩] 3000 ≠ [⟨5, 6, 0⟩, ⟨1, 2, 0⟩] := by
  constructor
  · intro l g h
    unfold merge_intervals_post
    rw [if_neg h]
    exact ⟨List.perm_insertionSort leStart l, List.sorted_insertionSort leStart l⟩
  · decide

/-- Witness for C9 at a concrete unsorted two-element list. -/
theorem merge_mutates_input_witness :
    (merge_intervals_post [⟨5, 6, 0⟩, ⟨1, 2, 0⟩] 3000).Perm [⟨5, 6, 0⟩, ⟨1, 2, 0⟩] ∧
    List.Sorted leStart (merge_intervals_post [⟨5, 6, 0⟩, ⟨1, 2, 0⟩] 3000) :=
  merge_mutates_input.1 _ 3000 (by decide)

/-! ## Claim theorems: timestamp codec

`tsString 0 1 1` is the grammar string `"00:01.001"`.  Parsing it goes through
`float("01.001") = 1.0009999999999998899...` (the binary64 nearest to 1.001 is
below it), and `1.001 * 1000` rounds to `1000.9999999999999`, which `int()`
truncates to `1000` — so the codec loses a millisecond and the round trip
returns `"00:01.000"`. -/

/-- Claim C2 (failing evaluation): the grammar-conforming string `"00:01.001"`
converts to 1000 ms and back to `"00:01.000"`, so
`ms_to_timestamp (timestamp_to_ms s) ≠ s`. -/
theorem timestamp_round_trip_fails :
    (timestamp_to_ms (tsString 0 1 1)).map ms_to_timestamp = some (tsString 0 1 0) ∧
      tsString 0 1 0 ≠ tsString 0 1 1 ∧ conformsTS (tsString 0 1 1) = true := by
  decide

/-- Claim C8 (failing evaluation): on `"00:01.001"` the code returns 1000,
whereas `round((0*60 + 1.001) * 1000) = 1001` — the conversion truncates the
binary64 product instead of rounding the exact value. -/
theorem timestamp_truncates_not_rounds :
    timestamp_to_ms (tsString 0 1 1) = some 1000 ∧
      round (((0 * 60 : ℚ) + (1 + 1 / 1000)) * 1000) = 1001 := by
  decide

/-! ## Claim theorems: log-line codec -/

/-- Claim C7: writing the interval `(0, 1234, 0.8567)` (its similarity being
the binary64 value `fl (8567/10000)`) produces exactly the line
`Match: 00:00.000 → 00:01.234 | Similarity: 0.86`, and parsing that line back
recovers start 0, end 1234 and the binary64 value 0.86. -/
theorem log_round_trip_example :
    matchLine 0 1234 (fl (8567 / 10000)) =
      ("Match: 00:00.000 → 00:01.234 | Similarity: 0.86").toList ∧
    parse_log_line (("Match: 00:00.000 → 00:01.234 | Similarity: 0.86").toList) =
      .ok (some ⟨0, 1234, fl (86 / 100)⟩) := by
  decide

/-! ## Lemmas about the log-line regex -/

theorem isDigit_ne_colon {c : Char} (h : c.isDigit = true) : c ≠ ':' := by
  intro he
  subst he
  exact absurd h (by decide)

theorem isDigit_ne_dot {c : Char} (h : c.isDigit = true) : c ≠ '.' := by
  intro he
  subst he
  exact absurd h (by decide)

theorem stripLit_spec :
    ∀ (pat s r : List Char), stripLit pat s = some r → s = pat ++ r
  | [], s, r => fun h => by
    have hh := Option.some.inj h
    simp [hh]
  | _ :: _, [], _ => by simp [stripLit]
  | l :: ls, c :: cs, r => by
    simp only [stripLit]
    by_cases h : c = l
    · rw [if_pos h]
      intro hh
      subst h
      exact congrArg (List.cons c) (stripLit_spec ls cs r hh)
    · rw [if_neg h]
      intro hh
      cases hh

theorem takeDigits_spec :
    ∀ (n : ℕ) (s d r : List Char), takeDigits n s = some (d, r) →
      s = d ++ r ∧ d.length = n ∧ ∀ c ∈ d, c.isDigit = true
  | 0, s, d, r => by
    simp only [takeDigits, Option.some.injEq, Prod.mk.injEq]
    rintro ⟨h1, h2⟩
    subst h1
    subst h2
    simp
  | _ + 1, [], _, _ => by simp [takeDigits]
  | n + 1, c :: cs, d, r => by
    simp only [takeDigits]
    by_cases hd : c.isDigit
    · rw [if_pos hd]
      intro h
      obtain ⟨⟨d', r'⟩, hp, he⟩ := Option.map_eq_some'.mp h
      obtain ⟨h1, h2, h3⟩ := takeDigits_spec n cs d' r' hp
      obtain ⟨he1, he2⟩ := Prod.mk.injEq .. ▸ he
      subst he1
      subst he2
      refine ⟨by rw [h1]; rfl, by simp [h2], ?_⟩
      intro x hx
      rcases List.mem_cons.mp hx with hx | hx
      · subst hx; exact hd
      · exact h3 x hx
    · rw [if_neg hd]
      intro h
      cases h

theorem matchTS_spec {s g r : List Char} (h : matchTS s = some (g, r)) :
    ∃ d1 d2 d3 : List Char,
      g = d1 ++ ':' :: (d2 ++ '.' :: d3) ∧ d1.length = 2 ∧ d2.length = 2 ∧
        d3.length = 3 ∧ (∀ c ∈ d1, c.isDigit = true) ∧
        (∀ c ∈ d2, c.isDigit = true) ∧ ∀ c ∈ d3, c.isDigit = true := by
  simp only [matchTS, bind, Option.bind_eq_some, Option.some.injEq] at h
  obtain ⟨⟨d1, r1⟩, h1, ⟨r2, h2, ⟨⟨d2, r3⟩, h3, ⟨r4, h4, ⟨⟨d3, r5⟩, h5, he⟩⟩⟩⟩⟩ := h
  obtain ⟨hg, hr⟩ := Prod.mk.injEq .. ▸ he
  obtain ⟨-, hl1, hd1⟩ := takeDigits_spec 2 s d1 r1 h1
  obtain ⟨-, hl2, hd2⟩ := takeDigits_spec 2 r2 d2 r3 h3
  obtain ⟨-, hl3, hd3⟩ := takeDigits_spec 3 r4 d3 r5 h5
  exact ⟨d1, d2, d3, hg.symm, hl1, hl2, hl3, hd1, hd2, hd3⟩

theorem splitColon_of_no_colon :
    ∀ s : List Char, (∀ c ∈ s, c ≠ ':') → splitColon s = [s]
  | [], _ => rfl
  | c :: cs, h => by
    simp only [splitColon]
    rw [if_neg (h c (List.mem_cons_self c cs)),
      splitColon_of_no_colon cs fun x hx => h x (List.mem_cons_of_mem c hx)]

theorem splitColon_append :
    ∀ (a b : List Char), (∀ c ∈ a, c ≠ ':') →
      splitColon (a ++ ':' :: b) = a :: splitColon b
  | [], b, _ => by
    show splitColon (':' :: b) = [] :: splitColon b
    simp [splitColon]
  | x :: a, b, h => by
    show splitColon (x :: (a ++ ':' :: b)) = (x :: a) :: splitColon b
    have ih := splitColon_append a b fun c hc => h c (List.mem_cons_of_mem x hc)
    simp only [splitColon, ih]
    rw [if_neg (h x (List.mem_cons_self x a))]

theorem pyFloat_digits_isSome (d : List Char) (hne : d ≠ [])
    (hd : ∀ c ∈ d, c.isDigit = true) : ∃ q, pyFloat d = some q := by
  unfold pyFloat
  rw [if_pos ?_]
  · exact ⟨_, rfl⟩
  refine ⟨List.all_eq_true.mpr fun c hc => by simp [hd c hc], ?_, ?_⟩
  · have : d.count '.' = 0 :=
      List.count_eq_zero.mpr fun hmem => isDigit_ne_dot (hd _ hmem) rfl
    omega
  · obtain ⟨c, hc⟩ := List.exists_mem_of_ne_nil d hne
    exact List.any_eq_true.mpr ⟨c, hc, hd c hc⟩

theorem pyFloat_sec_isSome (d2 d3 : List Char) (hne : d2 ≠ [])
    (hd2 : ∀ c ∈ d2, c.isDigit = true) (hd3 : ∀ c ∈ d3, c.isDigit = true) :
    ∃ q, pyFloat (d2 ++ '.' :: d3) = some q := by
  unfold pyFloat
  rw [if_pos ?_]
  · exact ⟨_, rfl⟩
  refine ⟨?_, ?_, ?_⟩
  · refine List.all_eq_true.mpr fun c hc => ?_
    rcases List.mem_append.mp hc with hc | hc
    · simp [hd2 c hc]
    · rcases List.mem_cons.mp hc with hc | hc
      · simp [hc]
      · simp [hd3 c hc]
  · have h2 : d2.count '.' = 0 :=
      List.count_eq_zero.mpr fun hmem => isDigit_ne_dot (hd2 _ hmem) rfl
    have h3 : d3.count '.' = 0 :=
      List.count_eq_zero.mpr fun hmem => isDigit_ne_dot (hd3 _ hmem) rfl
    rw [List.count_append, List.count_cons]
    simp [h2, h3]
  · obtain ⟨c, hc⟩ := List.exists_mem_of_ne_nil d2 hne
    exact List.any_eq_true.mpr ⟨c, List.mem_append_left _ hc, hd2 c hc⟩

theorem timestamp_to_ms_isSome (d1 d2 d3 : List Char) (h1 : d1 ≠ [])
    (h2 : d2 ≠ []) (hd1 : ∀ c ∈ d1, c.isDigit = true)
    (hd2 : ∀ c ∈ d2, c.isDigit = true) (hd3 : ∀ c ∈ d3, c.isDigit = true) :
    ∃ z, timestamp_to_ms (d1 ++ ':' :: (d2 ++ '.' :: d3)) = some z := by
  have hnc : ∀ c ∈ d2 ++ '.' :: d3, c ≠ ':' := by
    intro c hc
    rcases List.mem_append.mp hc with hc | hc
    · exact isDigit_ne_colon (hd2 c hc)
    · rcases List.mem_cons.mp hc with hc | hc
      · subst hc; decide
      · exact isDigit_ne_colon (hd3 c hc)
  have hsplit : splitColon (d1 ++ ':' :: (d2 ++ '.' :: d3)) = [d1, d2 ++ '.' :: d3] := by
    rw [splitColon_append d1 _ fun c hc => isDigit_ne_colon (hd1 c hc),
      splitColon_of_no_colon _ hnc]
  obtain ⟨m, hm⟩ := pyFloat_digits_isSome d1 h1 hd1
  obtain ⟨sec, hsec⟩ := pyFloat_sec_isSome d2 d3 h2 hd2 hd3
  refine ⟨pyInt (fmul (fadd (fmul m 60) sec) 1000), ?_⟩
  unfold timestamp_to_ms
  rw [hsplit]
  simp [hm, hsec]

/-! ## Claim theorems: log-line parsing -/

/-- Claim C10 (counterexample): the line
`Match: 00:00.000 → 00:01.234 | Similarity: 1.2.3` begins with text matching
the regex (the similarity group `[\d\.]+` captures `1.2.3`), yet
`parse_log_line` neither returns a triple nor `None`: `float("1.2.3")` raises
an uncaught `ValueError`. -/
theorem parse_raises_on_malformed_similarity :
    regexMatchLine (("Match: 00:00.000 → 00:01.234 | Similarity: 1.2.3").toList) =
        some (("00:00.000").toList, ("00:01.234").toList, ("1.2.3").toList) ∧
      parse_log_line (("Match: 00:00.000 → 00:01.234 | Similarity: 1.2.3").toList) =
        .error () := by
  decide

/-- Claim C10 (amended): parsing is prefix-based — every line whose beginning
matches the regex and whose captured similarity token is a valid float literal
parses to a triple (whatever trailing text follows); every line whose beginning
does not match yields `None` and is skipped by the read loop of
`process_log_file`; a matching line with a malformed similarity token (two or
more dots) instead raises `ValueError` (see the counterexample). -/
theorem parse_prefix_based :
    (∀ (line g1 g2 g3 : List Char), regexMatchLine line = some (g1, g2, g3) →
        (pyFloat g3).isSome →
        ∃ t : Interval, parse_log_line line = .ok (some t)) ∧
    (∀ line : List Char, regexMatchLine line = none → parse_log_line line = .ok none) ∧
    (∀ (line : List Char) (ls : List (List Char)), parse_log_line line = .ok none →
        collectParsed (line :: ls) = collectParsed ls) := by
  refine ⟨?_, ?_, ?_⟩
  · intro line g1 g2 g3 hre hsim
    have hshape := by
      simp only [regexMatchLine, bind, Option.bind_eq_some] at hre
      exact hre
    obtain ⟨r0, -, ⟨g1', r1⟩, hts1, r2, -, ⟨g2', r3⟩, hts2, r4, -, hlast⟩ := hshape
    have hg : g1' = g1 ∧ g2' = g2 := by
      by_cases hnil : r4.takeWhile (fun c => c.isDigit || c == '.') = []
      · rw [if_pos hnil] at hlast
        cases hlast
      · rw [if_neg hnil] at hlast
        simp only [Option.some.injEq, Prod.mk.injEq] at hlast
        exact ⟨hlast.1, hlast.2.1⟩
    obtain ⟨hg1, hg2⟩ := hg
    subst hg1
    subst hg2
    obtain ⟨d1, d2, d3, he1, hl1, hl2, hl3, hq1, hq2, hq3⟩ := matchTS_spec hts1
    obtain ⟨e1, e2, e3, hf1, hm1, hm2, hm3, hp1, hp2, hp3⟩ := matchTS_spec hts2
    subst he1
    subst hf1
    obtain ⟨z1, hz1⟩ :=
      timestamp_to_ms_isSome d1 d2 d3 (by intro hh; subst hh; simp at hl1)
        (by intro hh; subst hh; simp at hl2) hq1 hq2 hq3
    obtain ⟨z2, hz2⟩ :=
      timestamp_to_ms_isSome e1 e2 e3 (by intro hh; subst hh; simp at hm1)
        (by intro hh; subst hh; simp at hm2) hp1 hp2 hp3
    obtain ⟨sim, hsimq⟩ := Option.isSome_iff_exists.mp hsim
    refine ⟨⟨z1, z2, sim⟩, ?_⟩
    unfold parse_log_line
    rw [hre]
    simp [hz1, hz2, hsimq]
  · intro line h
    unfold parse_log_line
    rw [h]
  · intro line ls h
    simp only [collectParsed, h]

/-- Witness for the amended C10: a concrete line with trailing text after the
similarity token still parses to a triple. -/
theorem parse_prefix_based_witness :
    ∃ t : Interval,
      parse_log_line (("Match: 00:00.000 → 00:01.234 | Similarity: 0.86trailing").toList) =
        .ok (some t) :=
  parse_prefix_based.1 (("Match: 00:00.000 → 00:01.234 | Similarity: 0.86trailing").toList)
    (("00:00.000").toList) (("00:01.234").toList) (("0.86").toList)
    (by decide) (by decide)

/-! ## Claim theorems: similarity scanner -/

/-- Claim C5: if either vector has zero Euclidean norm the similarity function
returns exactly 0.0, and otherwise the divisor `norm(a) * norm(b)` of the
cosine computation is nonzero — no division fault is possible. -/
theorem cosine_zero_norm_guard (a b : List ℚ) :
    ((vnorm a = 0 ∨ vnorm b = 0) → fast_cosine_similarity a b = 0) ∧
    (¬(vnorm a = 0 ∨ vnorm b = 0) → vnorm a * vnorm b ≠ 0) := by
  constructor
  · intro h
    unfold fast_cosine_similarity
    split
    · rfl
    · next hn => exact absurd h hn
  · intro h
    push_neg at h
    exact mul_ne_zero h.1 h.2

/-- Witness for C5 at the zero vector against a nonzero vector. -/
theorem cosine_zero_norm_guard_witness :
    vnorm [0] = 0 ∧ fast_cosine_similarity [0] [1] = 0 := by
  have h0 : vnorm [0] = 0 := by
    simp [vnorm, sumsq]
  exact ⟨h0, (cosine_zero_norm_guard [0] [1]).1 (Or.inl h0)⟩

/-- Claim C3 (counterexample): with a one-sample full array equal to the
one-sample reference (frame rate 1 Hz, step 1000 ms, threshold 1/2), the
position `i = 0` satisfies `i + len(reference) ≤ len(full)` and its window has
similarity 1 above the threshold, yet the scan returns no detection at all: the
source iterates `range(0, len(full) - sample_len, step)`, which is strict and
excludes the window ending exactly at the end of the array. -/
theorem scan_boundary_excluded :
    match_segments [1] [1] 1 1000 1000 ((1 : ℝ) / 2) = some [] ∧
      fast_cosine_similarity [1] [1] = 1 := by
  constructor
  · have hstep : step_samples 1000 1 = 1 := by decide
    have hsp : scanPositions 1 1 1 = [] := by decide
    simp [match_segments, hstep, hsp]
  · have hv : vnorm [(1 : ℚ)] = 1 := by
      simp [vnorm, sumsq]
    unfold fast_cosine_similarity
    rw [if_neg (by rw [hv]; norm_num)]
    rw [hv]
    simp [dotProd]

/-- Claim C3 (amended): the scanner evaluates exactly the positions
`i = 0, step, 2*step, ...` with `i + len(reference) < len(full)` — strictly,
the window ending exactly at the end of the full array is not evaluated — and
when the reference is longer than the full array it returns an empty detection
sequence rather than raising (provided the step length itself is nonzero). -/
theorem scan_positions_strict :
    (∀ fullLen sampleLen step i : ℕ, 0 < step →
        (i ∈ scanPositions fullLen sampleLen step ↔
          step ∣ i ∧ i + sampleLen < fullLen)) ∧
    ∀ (full sample : List ℚ) (frame_rate step_ms : ℕ) (dur : ℤ) (thr : ℝ),
        full.length < sample.length → step_samples step_ms frame_rate ≠ 0 →
        match_segments full sample frame_rate step_ms dur thr = some [] := by
  constructor
  · intro fullLen sampleLen step i hstep
    unfold scanPositions
    simp only [List.mem_map, List.mem_range]
    constructor
    · rintro ⟨k, hk, rfl⟩
      have h1 : (k + 1) * step ≤ fullLen - sampleLen + step - 1 :=
        (Nat.le_div_iff_mul_le hstep).mp hk
      have h2 : (k + 1) * step = k * step + step := by ring
      exact ⟨dvd_mul_left step k, by omega⟩
    · rintro ⟨⟨k, rfl⟩, hlt⟩
      refine ⟨k, ?_, (mul_comm step k).symm⟩
      have h2 : (k + 1) * step = k * step + step := by ring
      have h3 : step * k = k * step := mul_comm step k
      rw [Nat.lt_iff_add_one_le, Nat.le_div_iff_mul_le hstep]
      omega
  · intro full sample frame_rate step_ms dur thr hlen hstep
    have hpos :
        scanPositions full.length sample.length (step_samples step_ms frame_rate) = [] := by
      unfold scanPositions
      have hz :
          (full.length - sample.length + step_samples step_ms frame_rate - 1) /
              step_samples step_ms frame_rate = 0 :=
        Nat.div_eq_of_lt (by omega)
      rw [hz]
      rfl
    simp [match_segments, hstep, hpos]

/-- Witness for the amended C3: membership at a concrete position, and a
concrete short-input scan. -/
theorem scan_positions_strict_witness :
    (4 ∈ scanPositions 10 3 2 ↔ 2 ∣ 4 ∧ 4 + 3 < 10) ∧
      match_segments [] [1] 1 1000 1000 0 = some [] :=
  ⟨scan_positions_strict.1 10 3 2 4 (by decide),
    scan_positions_strict.2 [] [1] 1 1000 1000 0 (by decide) (by decide)⟩

/-- Claim C4 (counterexample): the step length is the binary64 truncation
`int((step_ms / 1000) * frame_rate)`, not a rounding clamped to 1: at
`step_ms = 1`, `frame_rate = 100` it is 0 (violating "never less than 1"), and
at `step_ms = 150`, `frame_rate = 10` it is 1 while `round(1.5) = 2`. -/
theorem step_not_rounded_not_clamped :
    step_samples 1 100 = 0 ∧ step_samples 150 10 = 1 ∧
      round (((150 : ℚ) / 1000) * 10) = 2 := by
  decide

/-- Claim C4 (amended): the step length equals the truncated binary64 value
with no minimum; whenever it is 0 — which happens, e.g. for
`step_ms = 1, frame_rate = 100` — the scan raises `ZeroDivisionError`
(modelled: `match_segments` returns `none`) instead of being well-defined,
while the default configuration `step_ms = 50, frame_rate = 16000` gives 800. -/
theorem step_truncated_faults_when_zero :
    (∀ (full sample : List ℚ) (frame_rate step_ms : ℕ) (dur : ℤ) (thr : ℝ),
        step_samples step_ms frame_rate = 0 →
        match_segments full sample frame_rate step_ms dur thr = none) ∧
    step_samples 1 100 = 0 ∧ step_samples 50 16000 = 800 := by
  refine ⟨?_, by decide, by decide⟩
  intro full sample frame_rate step_ms dur thr h
  unfold match_segments
  rw [if_pos h]

/-- Witness for the amended C4: the concrete faulting configuration. -/
theorem step_truncated_faults_when_zero_witness :
    match_segments [] [] 100 1 0 0 = none :=
  step_truncated_faults_when_zero.1 [] [] 100 1 0 0 (by decide)

end HornDetect
